import Mathlib

/-!
Verification of the MuffinsVRFixes image nodes.

Shallow embedding of the two source files:
- muffins_offset_node.py: class MuffinsOffsetNode, method offset (GIMP-style
  offset with wrap / fill_color / transparent_black edge modes);
- vr180_stereo_tools.py: class VR180StereoTools, methods _ensure_even_width,
  _seam_feather and apply (SBS stereo split / rebuild with seam feathering).

A ComfyUI IMAGE is a torch float tensor of shape [B, H, W, C]; we model it as
a shape together with a total pixel map into the rationals (exact stand-in
for the float samples; all operations here are index remaps, linear blends
and clamps, so no float-specific behaviour is involved).  Values of the pixel
map outside the shape are irrelevant: image equality is compared in range.
-/

/-- An image batch of shape [B, H, W, C] with pixel map `pix b y x c`. -/
structure Img where
  b : Nat
  h : Nat
  w : Nat
  c : Nat
  pix : Nat → Nat → Nat → Nat → ℚ

/-- Equality of image batches: same shape and same pixels at in-range indices. -/
def Img.eqOn (u v : Img) : Prop :=
  u.b = v.b ∧ u.h = v.h ∧ u.w = v.w ∧ u.c = v.c ∧
  ∀ bi < u.b, ∀ y < u.h, ∀ x < u.w, ∀ ci < u.c, u.pix bi y x ci = v.pix bi y x ci

namespace MuffinsOffsetNode

/-- Python's round (banker's rounding, round half to even), as used by
`int(round(x))` in `offset` to turn the float offset into pixels. -/
def pyRound (q : ℚ) : ℤ :=
  if q - q.floor < 1/2 then q.floor
  else if 1/2 < q - q.floor then q.floor + 1
  else if q.floor % 2 = 0 then q.floor else q.floor + 1

/-- Raw per-axis pixel offset of `offset` (source lines 57-71): the auto-half
flag forces `dim // 2`, otherwise percent or pixel units are rounded. -/
def resolvePx (units : String) (off : ℚ) (autoHalf : Bool) (dim : Nat) : ℤ :=
  if autoHalf then ((dim / 2 : Nat) : ℤ)
  else if units = "percent" then pyRound (off / 100 * (dim : ℚ))
  else pyRound off

/-- Offset normalization of `offset` (source lines 74-82): reduce modulo the
dimension (Python `%` on a positive modulus is the Euclidean mod, as Lean's
`%` on ℤ), then wrap values above `dim // 2` negative. -/
def normOff (p : ℤ) (d : Nat) : ℤ :=
  if d ≠ 0 then
    if (d : ℤ) / 2 < p % (d : ℤ) then p % (d : ℤ) - (d : ℤ) else p % (d : ℤ)
  else p

/-- Copy length of the non-wrap paste (source lines 106-118): `w - x_px` for a
non-negative offset, `w + x_px` for a negative one. -/
def copyLen (p : ℤ) (d : Nat) : ℤ :=
  if 0 ≤ p then (d : ℤ) - p else (d : ℤ) + p

/-- The fill pixel by channel index, from the `fill_r, fill_g, fill_b` inputs
(source line 97). -/
def fillColor (r g bl : ℚ) : Nat → ℚ :=
  fun ci => if ci = 0 then r else if ci = 1 then g else bl

/-- Pixel map of `wrapRoll`. -/
def wrapRollPix (image : Img) (x_px y_px : ℤ) (bi yi xi ci : Nat) : ℚ :=
  image.pix bi (((yi : ℤ) - y_px) % (image.h : ℤ)).toNat
    (((xi : ℤ) - x_px) % (image.w : ℤ)).toNat ci

/-- torch.roll of the image by `(y_px, x_px)` on dims (1, 2) (source line 89):
the output pixel at `(yi, xi)` comes from `((yi - y_px) mod H, (xi - x_px) mod W)`. -/
def wrapRoll (image : Img) (x_px y_px : ℤ) : Img :=
  { image with pix := wrapRollPix image x_px y_px }

/-- The canvas filled with the fill pixel everywhere (source lines 96-101). -/
def fillCanvas (image : Img) (fill : Nat → ℚ) : Img :=
  { image with pix := fun _ _ _ ci => fill ci }

/-- Destination origin of the paste on one axis (source lines 106-118):
`offset` for a rightward/downward shift, 0 otherwise. -/
def dst0 (p : ℤ) : Nat := if 0 ≤ p then p.toNat else 0

/-- Source origin of the paste on one axis (source lines 106-118):
0 for a rightward/downward shift, `-offset` otherwise. -/
def src0 (p : ℤ) : Nat := if 0 ≤ p then 0 else (-p).toNat

/-- Pixel map of `pasteShift`. -/
def pasteShiftPix (image : Img) (fill : Nat → ℚ) (x_px y_px : ℤ) (bi yi xi ci : Nat) : ℚ :=
  if dst0 y_px ≤ yi ∧ yi < dst0 y_px + (copyLen y_px image.h).toNat ∧
     dst0 x_px ≤ xi ∧ xi < dst0 x_px + (copyLen x_px image.w).toNat then
    image.pix bi (yi - dst0 y_px + src0 y_px) (xi - dst0 x_px + src0 x_px) ci
  else fill ci

/-- The non-wrap shift (source lines 103-124): the source rectangle starting at
`(srcY0, srcX0)` is pasted at `(dstY0, dstX0)` on the filled canvas. -/
def pasteShift (image : Img) (fill : Nat → ℚ) (x_px y_px : ℤ) : Img :=
  { image with pix := pasteShiftPix image fill x_px y_px }

/-- MuffinsOffsetNode.offset (source lines 35-126).  The Python function
returns a 1-tuple or raises; we model success as `Except.ok` of the image.
The TypeError branch (non-tensor input) is made impossible by the `Img` type. -/
def offset (image : Img) (units : String) (x_offset y_offset : ℚ)
    (auto_half_width auto_half_height : Bool) (edge_mode : String)
    (fill_r fill_g fill_b : ℚ) : Except String Img :=
  if image.c ≠ 3 then .error "Expected 3-channel IMAGE"
  else
    let x_px := normOff (resolvePx units x_offset auto_half_width image.w) image.w
    let y_px := normOff (resolvePx units y_offset auto_half_height image.h) image.h
    if x_px = 0 ∧ y_px = 0 then .ok image
    else if edge_mode = "wrap" then .ok (wrapRoll image x_px y_px)
    else
      let fill : Nat → ℚ :=
        if edge_mode = "fill_color" then fillColor fill_r fill_g fill_b
        else fun _ => 0
      if copyLen x_px image.w ≤ 0 ∨ copyLen y_px image.h ≤ 0 then
        .ok (fillCanvas image fill)
      else .ok (pasteShift image fill x_px y_px)

end MuffinsOffsetNode

namespace VR180StereoTools

/-- torch.clamp of a sample to [0, 1]. -/
def clamp01 (q : ℚ) : ℚ := max 0 (min 1 q)

/-- torch.clamp(images, 0.0, 1.0) on a whole batch. -/
def torchClamp (image : Img) : Img :=
  { image with pix := fun bi y x ci => clamp01 (image.pix bi y x ci) }

/-- VR180StereoTools._ensure_even_width (source lines 48-56): with `skip` the
batch is returned as-is; otherwise an odd width is cropped by one column. -/
def ensure_even_width (images : Img) (even_width_handling : String) : Img :=
  if even_width_handling = "skip" then images
  else if images.w % 2 ≠ 0 then { images with w := images.w - 1 } else images

/-- Slice images[:, :, :k, :] (the left half). -/
def takeW (image : Img) (k : Nat) : Img :=
  { image with w := min k image.w }

/-- Slice images[:, :, k:, :] (the right half). -/
def dropW (image : Img) (k : Nat) : Img :=
  { image with w := image.w - k, pix := fun bi y x ci => image.pix bi y (k + x) ci }

/-- Pixel map of `catW`. -/
def catWPix (u v : Img) (bi y x ci : Nat) : ℚ :=
  if x < u.w then u.pix bi y x ci else v.pix bi y (x - u.w) ci

/-- torch.cat([u, v], dim=2): widths add, columns of `v` follow those of `u`. -/
def catW (u v : Img) : Img :=
  { u with w := u.w + v.w, pix := catWPix u v }

/-- torch.linspace(0.0, 1.0, steps) at index i: a single step yields 0.0,
otherwise i / (steps - 1). -/
def linspace01 (steps : Nat) (i : Nat) : ℚ :=
  if steps ≤ 1 then 0 else (i : ℚ) / ((steps : ℚ) - 1)

/-- The blended value written to position i of both seam bands (source line 72):
left_band[i] * (1 - ramp[i]) + right_band[i] * ramp[i], read from the pre-call
image (the blend is materialized before either band is overwritten). -/
def blendAt (o : Img) (f half_width : Nat) (bi y i ci : Nat) : ℚ :=
  o.pix bi y (half_width - f + i) ci * (1 - linspace01 f i) +
    o.pix bi y (half_width + i) ci * linspace01 f i

/-- Pixel map of `seamFeather` past the early return, with f already reduced
to min(seam_feather, half_width): positions in the two bands around the seam
hold the blend, all others are unchanged. -/
def seamFeatherPix (o : Img) (f half_width : Nat) (bi y x ci : Nat) : ℚ :=
  if half_width - f ≤ x ∧ x < half_width then
    blendAt o f half_width bi y (x - (half_width - f)) ci
  else if half_width ≤ x ∧ x < half_width + f then
    blendAt o f half_width bi y (x - half_width) ci
  else o.pix bi y x ci

/-- VR180StereoTools._seam_feather (source lines 58-75): with f =
min(seam_feather, half_width), the bands of f columns on either side of the
center seam are both overwritten by the blend
left_band * (1 - ramp) + right_band * ramp of the pre-call bands. -/
def seamFeather (o : Img) (seam_feather : ℤ) (half_width : Nat) : Img :=
  if seam_feather ≤ 0 then o
  else { o with pix := seamFeatherPix o (min seam_feather.toNat half_width) half_width }

/-- The error message of the odd-width checks (source lines 95 and 105). -/
def oddMsg : String :=
  "Width is odd and even_width_handling='skip'. Can't split evenly."

/-- VR180StereoTools.apply (source lines 77-145).  `src.clone()` and
`mono.clone()` are value copies, so in this value-level model the clone is the
source itself.  The 4-dimension shape check cannot fail on `Img`. -/
def apply (images : Img) (mode source_half output_layout even_width_handling : String)
    (seam_feather : ℤ) : Except String Img :=
  let images := ensure_even_width images even_width_handling
  if mode = "even_crop_only" then .ok (torchClamp images)
  else if mode = "sbs_extract_half" then
    if images.w % 2 ≠ 0 then .error oddMsg
    else
      let half := images.w / 2
      let left := takeW images half
      let right := dropW images half
      let o := if source_half = "left" then left else right
      .ok (torchClamp o)
  else if mode = "sbs_copy_half_to_stereo" then
    if images.w % 2 ≠ 0 then .error oddMsg
    else
      let half := images.w / 2
      let left := takeW images half
      let right := dropW images half
      let src := if source_half = "left" then left else right
      let other := src
      let o :=
        if output_layout = "parallel" then
          if source_half = "left" then catW src other else catW other src
        else catW src other
      .ok (torchClamp (seamFeather o seam_feather half))
  else if mode = "mono_to_stereo_copy" then
    let mono := images
    let half := mono.w
    let other := mono
    let o := if output_layout = "parallel" then catW mono other else catW mono other
    .ok (torchClamp (seamFeather o seam_feather half))
  else .error ("Unknown mode: " ++ mode)

end VR180StereoTools

open MuffinsOffsetNode VR180StereoTools

/-! Helper lemmas shared by the claim theorems. -/

lemma Img.eqOn_refl (u : Img) : u.eqOn u :=
  ⟨rfl, rfl, rfl, rfl, fun _ _ _ _ _ _ _ _ => rfl⟩

lemma ratFloor_intCast (m : ℤ) : ((m : ℚ)).floor = m := by
  rw [Rat.floor_def', Rat.num_intCast, Rat.den_intCast]
  simp

lemma pyRound_intCast (m : ℤ) : pyRound (m : ℚ) = m := by
  unfold pyRound
  rw [ratFloor_intCast]
  rw [if_pos (by norm_num)]

lemma resolvePx_pixels_int (m : ℤ) (d : Nat) :
    resolvePx "pixels" (m : ℚ) false d = m := by
  unfold resolvePx
  rw [if_neg (by simp), if_neg (by decide)]
  exact pyRound_intCast m

lemma normOff_bounds (p : ℤ) (d : Nat) (hd : d ≠ 0) :
    -(d : ℤ) < 2 * normOff p d ∧ 2 * normOff p d ≤ (d : ℤ) := by
  have hd0 : (0 : ℤ) < (d : ℤ) := by omega
  have h1 : 0 ≤ p % (d : ℤ) := Int.emod_nonneg p (by omega)
  have h2 : p % (d : ℤ) < (d : ℤ) := Int.emod_lt_of_pos p hd0
  unfold normOff
  rw [if_pos hd]
  split <;> omega

lemma normOff_fix (x : ℤ) (d : Nat) (h1 : -(d : ℤ) < 2 * x) (h2 : 2 * x < (d : ℤ)) :
    normOff x d = x := by
  have hd : d ≠ 0 := by omega
  unfold normOff
  rw [if_pos hd]
  rcases le_or_lt 0 x with hx | hx
  · have hm : x % (d : ℤ) = x := Int.emod_eq_of_lt hx (by omega)
    rw [hm, if_neg (by omega)]
  · have hm : x % (d : ℤ) = x + d := by
      have h3 : (x + (d : ℤ)) % (d : ℤ) = x % (d : ℤ) := by
        have h4 := Int.add_mul_emod_self_left x (d : ℤ) 1
        rwa [mul_one] at h4
      rw [← h3]
      exact Int.emod_eq_of_lt (by omega) (by omega)
    rw [hm, if_pos (by omega)]
    omega

lemma copyLen_pos (p : ℤ) (d : Nat) (hd : 1 ≤ d) (h1 : -(d : ℤ) < 2 * p)
    (h2 : 2 * p ≤ (d : ℤ)) : 0 < copyLen p d := by
  unfold copyLen
  split <;> omega

lemma emod_shift_cancel (a s n : ℤ) (h0 : 0 ≤ a) (h1 : a < n) :
    ((a + s) % n - s) % n = a := by
  have e1 : ((a + s) % n - s) % n = (a + s - s) % n := by
    conv_lhs => rw [Int.sub_emod, Int.emod_emod_of_dvd _ dvd_rfl, ← Int.sub_emod]
  rw [e1, add_sub_cancel_right]
  exact Int.emod_eq_of_lt h0 h1

lemma clamp01_mem (q : ℚ) : 0 ≤ clamp01 q ∧ clamp01 q ≤ 1 :=
  ⟨le_max_left 0 _, max_le (by norm_num) (min_le_left 1 q)⟩

lemma dst0_nonneg (p : ℤ) (hp : 0 ≤ p) : dst0 p = p.toNat := if_pos hp

lemma src0_nonneg (p : ℤ) (hp : 0 ≤ p) : src0 p = 0 := if_pos hp

/-- A concrete 1x2x4x3 test batch used by the witnesses. -/
def wImg : Img :=
  { b := 1, h := 2, w := 4, c := 3,
    pix := fun bi y x ci => ((bi + 2 * y + 3 * x + 5 * ci : ℕ) : ℚ) / 100 }

/-- C1: for a 4-dimensional 3-channel input with W >= 1 and H >= 1, the per-axis
pixel offsets of MuffinsOffsetNode.offset (resolved by resolvePx from pixels,
percent or the auto-half flags, then normalized by normOff) lie in the half-open
symmetric ranges (-W/2, W/2] and (-H/2, H/2]; moreover on an even dimension d a
raw offset congruent to d/2 modulo d normalizes to +d/2 (it stays positive). -/
theorem C1_offset_range (img : Img) (units : String) (xo yo : ℚ) (ahw ahh : Bool)
    (_hc : img.c = 3) (hw : 1 ≤ img.w) (hh : 1 ≤ img.h) :
    (-(img.w : ℤ) < 2 * normOff (resolvePx units xo ahw img.w) img.w ∧
      2 * normOff (resolvePx units xo ahw img.w) img.w ≤ (img.w : ℤ)) ∧
    (-(img.h : ℤ) < 2 * normOff (resolvePx units yo ahh img.h) img.h ∧
      2 * normOff (resolvePx units yo ahh img.h) img.h ≤ (img.h : ℤ)) ∧
    ∀ d : ℕ, d % 2 = 0 → 1 ≤ d → ∀ raw : ℤ, raw % (d : ℤ) = (d : ℤ) / 2 →
      normOff raw d = (d : ℤ) / 2 := by
  refine ⟨normOff_bounds _ _ (by omega), normOff_bounds _ _ (by omega), ?_⟩
  intro d hde hd1 raw hr
  unfold normOff
  rw [if_pos (by omega : d ≠ 0), hr, if_neg (lt_irrefl _)]

/-- Witness for C1 at the concrete batch wImg with auto-half offsets. -/
theorem C1_offset_range_witness :
    (-(wImg.w : ℤ) < 2 * normOff (resolvePx "pixels" 0 true wImg.w) wImg.w ∧
      2 * normOff (resolvePx "pixels" 0 true wImg.w) wImg.w ≤ (wImg.w : ℤ)) ∧
    (-(wImg.h : ℤ) < 2 * normOff (resolvePx "pixels" 0 true wImg.h) wImg.h ∧
      2 * normOff (resolvePx "pixels" 0 true wImg.h) wImg.h ≤ (wImg.h : ℤ)) ∧
    ∀ d : ℕ, d % 2 = 0 → 1 ≤ d → ∀ raw : ℤ, raw % (d : ℤ) = (d : ℤ) / 2 →
      normOff raw d = (d : ℤ) / 2 :=
  C1_offset_range wImg "pixels" 0 0 true true rfl (by decide) (by decide)

/-- C9: on any 3-channel input with W >= 1 and H >= 1 the copy lengths computed
by the non-wrap path of MuffinsOffsetNode.offset from the normalized offsets are
both strictly positive, so the guard branch returning the filled canvas with no
copy is unreachable: whenever the fill path is taken the result is the paste. -/
theorem C9_guard_unreachable (img : Img) (units : String) (xo yo : ℚ) (ahw ahh : Bool)
    (hw : 1 ≤ img.w) (hh : 1 ≤ img.h) :
    0 < copyLen (normOff (resolvePx units xo ahw img.w) img.w) img.w ∧
    0 < copyLen (normOff (resolvePx units yo ahh img.h) img.h) img.h ∧
    ∀ (em : String) (r g bq : ℚ), img.c = 3 → em ≠ "wrap" →
      ¬(normOff (resolvePx units xo ahw img.w) img.w = 0 ∧
        normOff (resolvePx units yo ahh img.h) img.h = 0) →
      offset img units xo yo ahw ahh em r g bq =
        .ok (pasteShift img
          (if em = "fill_color" then fillColor r g bq else fun _ => 0)
          (normOff (resolvePx units xo ahw img.w) img.w)
          (normOff (resolvePx units yo ahh img.h) img.h)) := by
  have hbx := normOff_bounds (resolvePx units xo ahw img.w) img.w (by omega)
  have hby := normOff_bounds (resolvePx units yo ahh img.h) img.h (by omega)
  have hcx := copyLen_pos _ img.w hw hbx.1 hbx.2
  have hcy := copyLen_pos _ img.h hh hby.1 hby.2
  refine ⟨hcx, hcy, ?_⟩
  intro em r g bq hc hem hnz
  simp only [offset, hc]
  rw [if_neg (by omega), if_neg hnz, if_neg hem, if_neg (by omega)]

/-- Witness for C9 at the concrete batch wImg with auto-half offsets. -/
theorem C9_guard_unreachable_witness :
    0 < copyLen (normOff (resolvePx "pixels" 0 true wImg.w) wImg.w) wImg.w ∧
    0 < copyLen (normOff (resolvePx "pixels" 0 true wImg.h) wImg.h) wImg.h ∧
    ∀ (em : String) (r g bq : ℚ), wImg.c = 3 → em ≠ "wrap" →
      ¬(normOff (resolvePx "pixels" 0 true wImg.w) wImg.w = 0 ∧
        normOff (resolvePx "pixels" 0 true wImg.h) wImg.h = 0) →
      offset wImg "pixels" 0 0 true true em r g bq =
        .ok (pasteShift wImg
          (if em = "fill_color" then fillColor r g bq else fun _ => 0)
          (normOff (resolvePx "pixels" 0 true wImg.w) wImg.w)
          (normOff (resolvePx "pixels" 0 true wImg.h) wImg.h)) :=
  C9_guard_unreachable wImg "pixels" 0 0 true true (by decide) (by decide)

/-- C2: with edge_mode fill_color and resolved offsets x_px > 0, y_px = 0, the
output of MuffinsOffsetNode.offset holds the fill color (fill_r, fill_g, fill_b)
on columns [0, x_px) of every batch index and row, and the input's columns
[0, W - x_px) on columns [x_px, W). -/
theorem C2_fill_color_columns (img : Img) (units : String) (xo yo : ℚ)
    (ahw ahh : Bool) (r g bq : ℚ) (xn : ℤ) (hc : img.c = 3)
    (hw : 1 ≤ img.w) (hh : 1 ≤ img.h)
    (hx : normOff (resolvePx units xo ahw img.w) img.w = xn) (hxpos : 0 < xn)
    (hy : normOff (resolvePx units yo ahh img.h) img.h = 0) :
    ∃ o, offset img units xo yo ahw ahh "fill_color" r g bq = .ok o ∧
      o.b = img.b ∧ o.h = img.h ∧ o.w = img.w ∧ o.c = img.c ∧
      ∀ bi y ci, bi < img.b → y < img.h → ci < img.c →
        (∀ x < xn.toNat, o.pix bi y x ci = fillColor r g bq ci) ∧
        ∀ x, xn.toNat ≤ x → x < img.w → o.pix bi y x ci = img.pix bi y (x - xn.toNat) ci := by
  have hbx := normOff_bounds (resolvePx units xo ahw img.w) img.w (by omega)
  rw [hx] at hbx
  have hxn0 : (0 : ℤ) ≤ xn := le_of_lt hxpos
  have hcx : 0 < copyLen xn img.w := copyLen_pos xn img.w hw hbx.1 hbx.2
  have hcy : 0 < copyLen 0 img.h := copyLen_pos 0 img.h hh (by omega) (by omega)
  have hclx : copyLen xn img.w = (img.w : ℤ) - xn := if_pos hxn0
  have hcly : copyLen 0 img.h = (img.h : ℤ) - 0 := if_pos (le_refl 0)
  refine ⟨pasteShift img (fillColor r g bq) xn 0, ?_, rfl, rfl, rfl, rfl, ?_⟩
  · simp only [offset, hc, hx, hy]
    rw [if_neg (by omega), if_neg (by simp only [and_true]; omega),
      if_neg (by decide : ¬("fill_color" = "wrap")), if_neg (by omega)]
    rfl
  · intro bi y ci _hbi hyr _hci
    constructor
    · intro x hxlt
      show pasteShiftPix img (fillColor r g bq) xn 0 bi y x ci = fillColor r g bq ci
      unfold pasteShiftPix
      rw [dst0_nonneg xn hxn0, dst0_nonneg 0 (le_refl 0), hclx, hcly]
      rw [if_neg (by omega)]
    · intro x hx1 hx2
      show pasteShiftPix img (fillColor r g bq) xn 0 bi y x ci = img.pix bi y (x - xn.toNat) ci
      unfold pasteShiftPix
      rw [dst0_nonneg xn hxn0, dst0_nonneg 0 (le_refl 0),
        src0_nonneg xn hxn0, src0_nonneg 0 (le_refl 0), hclx, hcly]
      rw [if_pos (by omega)]
      have e1 : y - (0 : ℤ).toNat + 0 = y := by omega
      have e2 : x - xn.toNat + 0 = x - xn.toNat := by omega
      rw [e1, e2]

/-- A concrete 1x1x4x3 test batch used by the witnesses. -/
def rowImg : Img :=
  { b := 1, h := 1, w := 4, c := 3,
    pix := fun bi y x ci => ((bi + 2 * y + 3 * x + 5 * ci : ℕ) : ℚ) / 100 }

/-- Witness for C2 at rowImg with auto-half offsets (x_px = 2, y_px = 0). -/
theorem C2_fill_color_columns_witness :
    ∃ o, offset rowImg "pixels" 0 0 true true "fill_color" 1 (1/2) 0 = .ok o ∧
      o.b = rowImg.b ∧ o.h = rowImg.h ∧ o.w = rowImg.w ∧ o.c = rowImg.c ∧
      ∀ bi y ci, bi < rowImg.b → y < rowImg.h → ci < rowImg.c →
        (∀ x < (2 : ℤ).toNat, o.pix bi y x ci = fillColor 1 (1/2) 0 ci) ∧
        ∀ x, (2 : ℤ).toNat ≤ x → x < rowImg.w →
          o.pix bi y x ci = rowImg.pix bi y (x - (2 : ℤ).toNat) ci :=
  C2_fill_color_columns rowImg "pixels" 0 0 true true 1 (1/2) 0 2 rfl (by decide)
    (by decide) (by decide) (by decide) (by decide)

lemma wrapRoll_pix (image : Img) (p q : ℤ) (bi yi xi ci : Nat) :
    (wrapRoll image p q).pix bi yi xi ci =
      image.pix bi (((yi : ℤ) - q) % (image.h : ℤ)).toNat
        (((xi : ℤ) - p) % (image.w : ℤ)).toNat ci := rfl

lemma wrapRoll_h (image : Img) (p q : ℤ) : (wrapRoll image p q).h = image.h := rfl

lemma wrapRoll_w (image : Img) (p q : ℤ) : (wrapRoll image p q).w = image.w := rfl

/-- C3: for integer pixel offsets with 2|x| < W and 2|y| < H, a wrap offset by
(x, y) followed by a wrap offset by (-x, -y) returns the original batch. -/
theorem C3_wrap_roundtrip (img : Img) (x y : ℤ) (hc : img.c = 3)
    (hx : 2 * |x| < (img.w : ℤ)) (hy : 2 * |y| < (img.h : ℤ)) :
    ∃ mid o,
      offset img "pixels" ((x : ℤ) : ℚ) ((y : ℤ) : ℚ) false false "wrap" 0 0 0 = .ok mid ∧
      offset mid "pixels" ((-x : ℤ) : ℚ) ((-y : ℤ) : ℚ) false false "wrap" 0 0 0 = .ok o ∧
      o.eqOn img := by
  have lx1 := le_abs_self x
  have lx2 := neg_abs_le x
  have ly1 := le_abs_self y
  have ly2 := neg_abs_le y
  have hax := abs_nonneg x
  have hay := abs_nonneg y
  have hw1 : 1 ≤ img.w := by omega
  have hh1 : 1 ≤ img.h := by omega
  have hnx : normOff (resolvePx "pixels" ((x : ℤ) : ℚ) false img.w) img.w = x := by
    rw [resolvePx_pixels_int]
    exact normOff_fix x img.w (by omega) (by omega)
  have hny : normOff (resolvePx "pixels" ((y : ℤ) : ℚ) false img.h) img.h = y := by
    rw [resolvePx_pixels_int]
    exact normOff_fix y img.h (by omega) (by omega)
  by_cases h0 : x = 0 ∧ y = 0
  · obtain ⟨h1, h2⟩ := h0
    subst h1
    subst h2
    have hfst : offset img "pixels" ((0 : ℤ) : ℚ) ((0 : ℤ) : ℚ) false false "wrap" 0 0 0 =
        .ok img := by
      simp only [offset]
      rw [if_neg (by omega : ¬img.c ≠ 3), hnx, hny, if_pos ⟨rfl, rfl⟩]
    exact ⟨img, img, hfst, hfst, Img.eqOn_refl img⟩
  · have h0n : ¬(-x = 0 ∧ -y = 0) := by
      intro hcon
      exact h0 ⟨by omega, by omega⟩
    have hcw : (wrapRoll img x y).c = 3 := hc
    have hnx2 : normOff (resolvePx "pixels" ((-x : ℤ) : ℚ) false (wrapRoll img x y).w)
        (wrapRoll img x y).w = -x := by
      rw [wrapRoll_w, resolvePx_pixels_int]
      exact normOff_fix (-x) img.w (by omega) (by omega)
    have hny2 : normOff (resolvePx "pixels" ((-y : ℤ) : ℚ) false (wrapRoll img x y).h)
        (wrapRoll img x y).h = -y := by
      rw [wrapRoll_h, resolvePx_pixels_int]
      exact normOff_fix (-y) img.h (by omega) (by omega)
    refine ⟨wrapRoll img x y, wrapRoll (wrapRoll img x y) (-x) (-y), ?_, ?_, ?_⟩
    · simp only [offset]
      rw [if_neg (by omega : ¬img.c ≠ 3), hnx, hny, if_neg h0, if_pos trivial]
    · simp only [offset]
      rw [if_neg (by omega : ¬(wrapRoll img x y).c ≠ 3), hnx2, hny2, if_neg h0n, if_pos trivial]
    · refine ⟨rfl, rfl, rfl, rfl, ?_⟩
      intro bi _hbi yi hyi xi hxi ci _hci
      rw [wrapRoll_h, wrapRoll_h] at hyi
      rw [wrapRoll_w, wrapRoll_w] at hxi
      have hn0 : (img.h : ℤ) ≠ 0 := by omega
      have hw0 : (img.w : ℤ) ≠ 0 := by omega
      rw [wrapRoll_pix, wrapRoll_h, wrapRoll_w, wrapRoll_pix]
      rw [sub_neg_eq_add, sub_neg_eq_add]
      rw [Int.toNat_of_nonneg (Int.emod_nonneg _ hn0),
        Int.toNat_of_nonneg (Int.emod_nonneg _ hw0)]
      rw [emod_shift_cancel (yi : ℤ) y (img.h : ℤ) (by omega) (by omega),
        emod_shift_cancel (xi : ℤ) x (img.w : ℤ) (by omega) (by omega)]
      rw [Int.toNat_natCast, Int.toNat_natCast]

/-- Witness for C3 at rowImg with the offset (1, 0). -/
theorem C3_wrap_roundtrip_witness :
    ∃ mid o,
      offset rowImg "pixels" ((1 : ℤ) : ℚ) ((0 : ℤ) : ℚ) false false "wrap" 0 0 0 = .ok mid ∧
      offset mid "pixels" ((-1 : ℤ) : ℚ) ((-0 : ℤ) : ℚ) false false "wrap" 0 0 0 = .ok o ∧
      o.eqOn rowImg :=
  C3_wrap_roundtrip rowImg 1 0 rfl (by decide) (by decide)

lemma ew_skip (images : Img) (ewh : String) (hs : ewh = "skip") :
    ensure_even_width images ewh = images := by
  unfold ensure_even_width
  rw [if_pos hs]

lemma ew_even (images : Img) (ewh : String) (he : images.w % 2 = 0) :
    ensure_even_width images ewh = images := by
  unfold ensure_even_width
  split_ifs with h1 h2
  · rfl
  · exact absurd he h2
  · rfl

lemma ew_keep (images : Img) (ewh : String) (h : ewh = "skip" ∨ images.w % 2 = 0) :
    ensure_even_width images ewh = images := by
  rcases h with h | h
  · exact ew_skip images ewh h
  · exact ew_even images ewh h

lemma ew_parity (images : Img) (ewh : String) :
    (ensure_even_width images ewh).w % 2 = 1 ↔ ewh = "skip" ∧ images.w % 2 = 1 := by
  unfold ensure_even_width
  split_ifs with h1 h2
  · simp [h1]
  · constructor
    · intro hodd
      exfalso
      have hv : (images.w - 1) % 2 = 1 := hodd
      omega
    · rintro ⟨hs, _⟩
      exact absurd hs h1
  · constructor
    · intro hodd
      exfalso
      have hv : images.w % 2 = 1 := hodd
      omega
    · rintro ⟨hs, _⟩
      exact absurd hs h1

lemma ew_not_skip_even (images : Img) (ewh : String) (h1 : ewh ≠ "skip") :
    (ensure_even_width images ewh).w % 2 = 0 := by
  unfold ensure_even_width
  rw [if_neg h1]
  split_ifs with h2
  · show (images.w - 1) % 2 = 0
    omega
  · omega

/-- The selected source half of the width-normalized batch (source lines 97-99
and 106-110): the condition is equality with the exact string "left", any
other value selects the right half. -/
def srcW (images : Img) (source_half even_width_handling : String) : Img :=
  if source_half = "left" then
    takeW (ensure_even_width images even_width_handling)
      ((ensure_even_width images even_width_handling).w / 2)
  else
    dropW (ensure_even_width images even_width_handling)
      ((ensure_even_width images even_width_handling).w / 2)

lemma apply_crop (images : Img) (sh ol ewh : String) (sf : ℤ) :
    apply images "even_crop_only" sh ol ewh sf =
      .ok (torchClamp (ensure_even_width images ewh)) := by
  simp only [apply]
  rw [if_pos trivial]

lemma apply_extract (images : Img) (sh ol ewh : String) (sf : ℤ) :
    apply images "sbs_extract_half" sh ol ewh sf =
      if (ensure_even_width images ewh).w % 2 ≠ 0 then .error oddMsg
      else .ok (torchClamp (srcW images sh ewh)) := by
  simp only [apply, srcW]
  rw [if_neg (by decide : ¬("sbs_extract_half" = "even_crop_only")), if_pos trivial]

lemma apply_copy (images : Img) (sh ol ewh : String) (sf : ℤ) :
    apply images "sbs_copy_half_to_stereo" sh ol ewh sf =
      if (ensure_even_width images ewh).w % 2 ≠ 0 then .error oddMsg
      else .ok (torchClamp (seamFeather (catW (srcW images sh ewh) (srcW images sh ewh)) sf
        ((ensure_even_width images ewh).w / 2))) := by
  simp only [apply, srcW]
  rw [if_neg (by decide : ¬("sbs_copy_half_to_stereo" = "even_crop_only")),
    if_neg (by decide : ¬("sbs_copy_half_to_stereo" = "sbs_extract_half")),
    if_pos trivial, ite_self, ite_self]

lemma apply_mono (images : Img) (sh ol ewh : String) (sf : ℤ) :
    apply images "mono_to_stereo_copy" sh ol ewh sf =
      .ok (torchClamp (seamFeather
        (catW (ensure_even_width images ewh) (ensure_even_width images ewh)) sf
        (ensure_even_width images ewh).w)) := by
  simp only [apply]
  rw [if_neg (by decide : ¬("mono_to_stereo_copy" = "even_crop_only")),
    if_neg (by decide : ¬("mono_to_stereo_copy" = "sbs_extract_half")),
    if_neg (by decide : ¬("mono_to_stereo_copy" = "sbs_copy_half_to_stereo")),
    if_pos trivial, ite_self]

lemma apply_unknown (images : Img) (mode sh ol ewh : String) (sf : ℤ)
    (h1 : mode ≠ "even_crop_only") (h2 : mode ≠ "sbs_extract_half")
    (h3 : mode ≠ "sbs_copy_half_to_stereo") (h4 : mode ≠ "mono_to_stereo_copy") :
    apply images mode sh ol ewh sf = .error ("Unknown mode: " ++ mode) := by
  simp only [apply]
  rw [if_neg h1, if_neg h2, if_neg h3, if_neg h4]

/-- C4: whenever VR180StereoTools.apply returns successfully, every element of
the returned batch lies in [0, 1], even if the input held values outside it. -/
theorem C4_output_clamped (images : Img) (mode sh ol ewh : String) (sf : ℤ) (o : Img)
    (ho : apply images mode sh ol ewh sf = .ok o) :
    ∀ bi y x ci, 0 ≤ o.pix bi y x ci ∧ o.pix bi y x ci ≤ 1 := by
  intro bi y x ci
  by_cases m1 : mode = "even_crop_only"
  · subst m1
    rw [apply_crop] at ho
    rw [Except.ok.injEq] at ho
    subst ho
    exact clamp01_mem _
  by_cases m2 : mode = "sbs_extract_half"
  · subst m2
    rw [apply_extract] at ho
    by_cases hp : (ensure_even_width images ewh).w % 2 = 0
    · rw [if_neg (by omega)] at ho
      rw [Except.ok.injEq] at ho
      subst ho
      exact clamp01_mem _
    · rw [if_pos (by omega)] at ho
      exact Except.noConfusion ho
  by_cases m3 : mode = "sbs_copy_half_to_stereo"
  · subst m3
    rw [apply_copy] at ho
    by_cases hp : (ensure_even_width images ewh).w % 2 = 0
    · rw [if_neg (by omega)] at ho
      rw [Except.ok.injEq] at ho
      subst ho
      exact clamp01_mem _
    · rw [if_pos (by omega)] at ho
      exact Except.noConfusion ho
  by_cases m4 : mode = "mono_to_stereo_copy"
  · subst m4
    rw [apply_mono] at ho
    rw [Except.ok.injEq] at ho
    subst ho
    exact clamp01_mem _
  · rw [apply_unknown images mode sh ol ewh sf m1 m2 m3 m4] at ho
    exact Except.noConfusion ho

/-- Witness for C4: even_crop_only on rowImg returns the clamped batch, whose
pixel (0,0,0,0) lies in [0, 1]. -/
theorem C4_output_clamped_witness :
    apply rowImg "even_crop_only" "left" "cross_eyed" "skip" 0 =
      .ok (torchClamp rowImg) ∧
    (0 ≤ (torchClamp rowImg).pix 0 0 0 0 ∧ (torchClamp rowImg).pix 0 0 0 0 ≤ 1) :=
  ⟨rfl, C4_output_clamped rowImg "even_crop_only" "left" "cross_eyed" "skip" 0
    (torchClamp rowImg) rfl 0 0 0 0⟩

/-- C5: in modes sbs_extract_half and sbs_copy_half_to_stereo, apply fails with
the odd-width/skip message exactly when the normalized width is odd, i.e.
exactly when the input width is odd and even_width_handling is skip; with
auto_crop_if_odd these modes never raise, for any input width. -/
theorem C5_odd_width_error (images : Img) (mode sh ol ewh : String) (sf : ℤ)
    (hm : mode = "sbs_extract_half" ∨ mode = "sbs_copy_half_to_stereo") :
    (apply images mode sh ol ewh sf = .error oddMsg ↔
      ewh = "skip" ∧ images.w % 2 = 1) ∧
    (ewh = "auto_crop_if_odd" → ∃ o, apply images mode sh ol ewh sf = .ok o) := by
  have hpar := ew_parity images ewh
  rcases hm with rfl | rfl
  · constructor
    · rw [apply_extract]
      by_cases hp : (ensure_even_width images ewh).w % 2 = 0
      · rw [if_neg (by omega)]
        constructor
        · intro he
          exact absurd he (by simp)
        · intro hrhs
          exact absurd (hpar.mpr hrhs) (by omega)
      · rw [if_pos (by omega)]
        constructor
        · intro _
          exact hpar.mp (by omega)
        · intro _
          rfl
    · intro hauto
      have hns : ewh ≠ "skip" := by
        rw [hauto]
        decide
      have hev := ew_not_skip_even images ewh hns
      rw [apply_extract, if_neg (by omega)]
      exact ⟨_, rfl⟩
  · constructor
    · rw [apply_copy]
      by_cases hp : (ensure_even_width images ewh).w % 2 = 0
      · rw [if_neg (by omega)]
        constructor
        · intro he
          exact absurd he (by simp)
        · intro hrhs
          exact absurd (hpar.mpr hrhs) (by omega)
      · rw [if_pos (by omega)]
        constructor
        · intro _
          exact hpar.mp (by omega)
        · intro _
          rfl
    · intro hauto
      have hns : ewh ≠ "skip" := by
        rw [hauto]
        decide
      have hev := ew_not_skip_even images ewh hns
      rw [apply_copy, if_neg (by omega)]
      exact ⟨_, rfl⟩

/-- A concrete 1x1x3x3 odd-width batch used by the witnesses. -/
def oddImg : Img :=
  { b := 1, h := 1, w := 3, c := 3,
    pix := fun bi y x ci => ((bi + 2 * y + 3 * x + 5 * ci : ℕ) : ℚ) / 100 }

/-- Witness for C5 at the odd-width batch oddImg in mode sbs_extract_half. -/
theorem C5_odd_width_error_witness :
    (apply oddImg "sbs_extract_half" "left" "cross_eyed" "skip" 0 = .error oddMsg ↔
      "skip" = "skip" ∧ oddImg.w % 2 = 1) ∧
    ("skip" = "auto_crop_if_odd" →
      ∃ o, apply oddImg "sbs_extract_half" "left" "cross_eyed" "skip" 0 = .ok o) :=
  C5_odd_width_error oddImg "sbs_extract_half" "left" "cross_eyed" "skip" 0 (Or.inl rfl)

lemma seamFeather_pos_pix (o : Img) (sf : ℤ) (half : Nat) (h : ¬sf ≤ 0)
    (bi y x ci : Nat) :
    (seamFeather o sf half).pix bi y x ci =
      seamFeatherPix o (min sf.toNat half) half bi y x ci := by
  unfold seamFeather
  rw [if_neg h]

/-- C6: for an SBS output of width 2*half and seam_feather f > 0, with
g = min(f, half), after feathering the g columns left of the seam equal the g
columns right of the seam column for column, and both hold the blend
left*(1-ramp) + right*ramp of the pre-feather bands, the ramp being
linspace(0,1,g). -/
theorem C6_seam_bands (o : Img) (half : Nat) (sf : ℤ) (_hw2 : o.w = 2 * half)
    (hsf : 0 < sf) :
    ∀ bi y ci i, i < min sf.toNat half →
      (seamFeather o sf half).pix bi y (half - min sf.toNat half + i) ci =
        (seamFeather o sf half).pix bi y (half + i) ci ∧
      (seamFeather o sf half).pix bi y (half - min sf.toNat half + i) ci =
        blendAt o (min sf.toNat half) half bi y i ci ∧
      blendAt o (min sf.toNat half) half bi y i ci =
        o.pix bi y (half - min sf.toNat half + i) ci *
            (1 - linspace01 (min sf.toNat half) i) +
          o.pix bi y (half + i) ci * linspace01 (min sf.toNat half) i := by
  intro bi y ci i hi
  have hg : min sf.toNat half ≤ half := Nat.min_le_right _ _
  have hns : ¬sf ≤ 0 := by omega
  have hleft : (seamFeather o sf half).pix bi y (half - min sf.toNat half + i) ci =
      blendAt o (min sf.toNat half) half bi y i ci := by
    rw [seamFeather_pos_pix o sf half hns]
    unfold seamFeatherPix
    rw [if_pos ⟨by omega, by omega⟩,
      show half - min sf.toNat half + i - (half - min sf.toNat half) = i from by omega]
  have hright : (seamFeather o sf half).pix bi y (half + i) ci =
      blendAt o (min sf.toNat half) half bi y i ci := by
    rw [seamFeather_pos_pix o sf half hns]
    unfold seamFeatherPix
    rw [if_neg (by omega), if_pos ⟨by omega, by omega⟩,
      show half + i - half = i from by omega]
  exact ⟨hleft.trans hright.symm, hleft, rfl⟩

/-- Witness for C6 at wImg (width 4, half 2) with seam_feather 1, band index 0. -/
theorem C6_seam_bands_witness :
    (seamFeather wImg 1 2).pix 0 0 (2 - min (1 : ℤ).toNat 2 + 0) 0 =
      (seamFeather wImg 1 2).pix 0 0 (2 + 0) 0 ∧
    (seamFeather wImg 1 2).pix 0 0 (2 - min (1 : ℤ).toNat 2 + 0) 0 =
      blendAt wImg (min (1 : ℤ).toNat 2) 2 0 0 0 0 ∧
    blendAt wImg (min (1 : ℤ).toNat 2) 2 0 0 0 0 =
      wImg.pix 0 0 (2 - min (1 : ℤ).toNat 2 + 0) 0 *
          (1 - linspace01 (min (1 : ℤ).toNat 2) 0) +
        wImg.pix 0 0 (2 + 0) 0 * linspace01 (min (1 : ℤ).toNat 2) 0 :=
  C6_seam_bands wImg 2 1 rfl (by decide) 0 0 0 0 (by decide)

/-- A concrete odd-width (W = 1) mono batch: the counterexample input for C7. -/
def monoOdd : Img :=
  { b := 1, h := 1, w := 1, c := 3, pix := fun _ _ _ _ => 1/2 }

/-- Counterexample to C7 as stated: on the mono batch of width m = 1 with
even_width_handling = auto_crop_if_odd, mode mono_to_stereo_copy returns a
batch of width 0, not 2m = 2 (the input is first cropped to width 0). -/
theorem C7_width_counterexample :
    (apply monoOdd "mono_to_stereo_copy" "left" "cross_eyed" "auto_crop_if_odd" 0).map Img.w
        = Except.ok 0 ∧
    monoOdd.w = 1 ∧ (0 : Nat) ≠ 2 * monoOdd.w := by
  refine ⟨?_, rfl, by decide⟩
  rfl

/-- C7 amended: mono_to_stereo_copy with seam_feather 0 returns a batch of
width 2m' whose left and right halves both equal the clamped input, where m' is
the width after even-width normalization; m' = m (and so the output width is
2m) when even_width_handling = skip or m is even, while auto_crop_if_odd on odd
m first crops the input to m - 1 columns. -/
theorem C7_mono_rebuild (img : Img) (sh ol ewh : String) :
    ∃ o, apply img "mono_to_stereo_copy" sh ol ewh 0 = .ok o ∧
      o.b = (ensure_even_width img ewh).b ∧ o.h = (ensure_even_width img ewh).h ∧
      o.c = (ensure_even_width img ewh).c ∧
      o.w = 2 * (ensure_even_width img ewh).w ∧
      (∀ bi y ci x, x < (ensure_even_width img ewh).w →
        o.pix bi y x ci = clamp01 ((ensure_even_width img ewh).pix bi y x ci) ∧
        o.pix bi y ((ensure_even_width img ewh).w + x) ci =
          clamp01 ((ensure_even_width img ewh).pix bi y x ci)) ∧
      ((ewh = "skip" ∨ img.w % 2 = 0) → o.w = 2 * img.w) := by
  refine ⟨torchClamp (seamFeather
      (catW (ensure_even_width img ewh) (ensure_even_width img ewh)) 0
      (ensure_even_width img ewh).w),
    apply_mono img sh ol ewh 0, rfl, rfl, rfl, ?_, ?_, ?_⟩
  · show (ensure_even_width img ewh).w + (ensure_even_width img ewh).w =
      2 * (ensure_even_width img ewh).w
    omega
  · intro bi y ci x hx
    constructor
    · show clamp01 (catWPix (ensure_even_width img ewh) (ensure_even_width img ewh) bi y x ci) =
        clamp01 ((ensure_even_width img ewh).pix bi y x ci)
      unfold catWPix
      rw [if_pos hx]
    · show clamp01 (catWPix (ensure_even_width img ewh) (ensure_even_width img ewh) bi y
          ((ensure_even_width img ewh).w + x) ci) =
        clamp01 ((ensure_even_width img ewh).pix bi y x ci)
      unfold catWPix
      rw [if_neg (by omega),
        show (ensure_even_width img ewh).w + x - (ensure_even_width img ewh).w = x from by omega]
  · intro hk
    show (ensure_even_width img ewh).w + (ensure_even_width img ewh).w = 2 * img.w
    rw [ew_keep img ewh hk]
    omega

/-- C8: output_layout has no observable effect on apply in any mode, and in
modes sbs_copy_half_to_stereo and mono_to_stereo_copy the concatenation built
under any layout is the value [source, duplicate] (source and its clone hold
the same values). -/
theorem C8_layout_unobservable (img : Img) (mode sh ewh : String) (sf : ℤ)
    (l1 l2 : String) :
    apply img mode sh l1 ewh sf = apply img mode sh l2 ewh sf ∧
    apply img "sbs_copy_half_to_stereo" sh l1 ewh sf =
      (if (ensure_even_width img ewh).w % 2 ≠ 0 then .error oddMsg
       else .ok (torchClamp (seamFeather
         (catW (srcW img sh ewh) (srcW img sh ewh)) sf
         ((ensure_even_width img ewh).w / 2)))) ∧
    apply img "mono_to_stereo_copy" sh l1 ewh sf =
      .ok (torchClamp (seamFeather
        (catW (ensure_even_width img ewh) (ensure_even_width img ewh)) sf
        (ensure_even_width img ewh).w)) := by
  refine ⟨?_, apply_copy img sh l1 ewh sf, apply_mono img sh l1 ewh sf⟩
  by_cases m1 : mode = "even_crop_only"
  · subst m1
    rw [apply_crop, apply_crop]
  by_cases m2 : mode = "sbs_extract_half"
  · subst m2
    rw [apply_extract, apply_extract]
  by_cases m3 : mode = "sbs_copy_half_to_stereo"
  · subst m3
    rw [apply_copy, apply_copy]
  by_cases m4 : mode = "mono_to_stereo_copy"
  · subst m4
    rw [apply_mono, apply_mono]
  · rw [apply_unknown img mode sh l1 ewh sf m1 m2 m3 m4,
      apply_unknown img mode sh l2 ewh sf m1 m2 m3 m4]

/-- C10: with even input width, any source_half value other than the exact
string "left" (unrecognized strings included) behaves exactly as "right" in
modes sbs_extract_half and sbs_copy_half_to_stereo, and no validation error is
raised for the unknown value. -/
theorem C10_source_half_default (img : Img) (sh ol ewh : String) (sf : ℤ)
    (heven : img.w % 2 = 0) (hsh : sh ≠ "left") :
    apply img "sbs_extract_half" sh ol ewh sf =
      apply img "sbs_extract_half" "right" ol ewh sf ∧
    apply img "sbs_copy_half_to_stereo" sh ol ewh sf =
      apply img "sbs_copy_half_to_stereo" "right" ol ewh sf ∧
    (∃ o, apply img "sbs_extract_half" sh ol ewh sf = .ok o) ∧
    ∃ o, apply img "sbs_copy_half_to_stereo" sh ol ewh sf = .ok o := by
  have hsrc : srcW img sh ewh = srcW img "right" ewh := by
    unfold srcW
    rw [if_neg hsh, if_neg (by decide)]
  have hew : (ensure_even_width img ewh).w % 2 = 0 := by
    rcases eq_or_ne ewh "skip" with hs | hs
    · rw [ew_skip img ewh hs]
      exact heven
    · exact ew_not_skip_even img ewh hs
  refine ⟨?_, ?_, ?_, ?_⟩
  · rw [apply_extract, apply_extract, hsrc]
  · rw [apply_copy, apply_copy, hsrc]
  · rw [apply_extract, if_neg (by omega)]
    exact ⟨_, rfl⟩
  · rw [apply_copy, if_neg (by omega)]
    exact ⟨_, rfl⟩

/-- Witness for C10 at wImg (even width 4) with the unknown source_half "top". -/
theorem C10_source_half_default_witness :
    apply wImg "sbs_extract_half" "top" "cross_eyed" "skip" 0 =
      apply wImg "sbs_extract_half" "right" "cross_eyed" "skip" 0 ∧
    apply wImg "sbs_copy_half_to_stereo" "top" "cross_eyed" "skip" 0 =
      apply wImg "sbs_copy_half_to_stereo" "right" "cross_eyed" "skip" 0 ∧
    (∃ o, apply wImg "sbs_extract_half" "top" "cross_eyed" "skip" 0 = .ok o) ∧
    ∃ o, apply wImg "sbs_copy_half_to_stereo" "top" "cross_eyed" "skip" 0 = .ok o :=
  C10_source_half_default wImg "top" "cross_eyed" "skip" 0 (by decide) (by decide)
